import Mathlib

/-!
Shallow embedding of the go-autoencoder repository.

Matrices (`[][]float64`) are lists of rows of reals; `float64` arithmetic is
idealised as real arithmetic.  Go code that can panic (index out of range) is
embedded as an `Option`-returning function: `none` models the panic.  Each
definition is translated from the named Go source function.
-/

/-- Go `[][]float64`: a matrix as a list of rows. -/
abbrev Mat := List (List ℝ)

/-- Go `[]float64`: a vector. -/
abbrev Vec := List ℝ

/-- `mathutils.Sigmoid` (src/internal/mathutils/activations.go):
`return 1.0 / (1.0 + math.Exp(-x))`. -/
noncomputable def Sigmoid (x : ℝ) : ℝ := 1 / (1 + Real.exp (-x))

/-- The argument the source passes to `math.Exp` inside `Sigmoid`: the call is
literally `math.Exp(-x)`, with no branch on the sign of `x`. -/
def sigmoidExpArg (x : ℝ) : ℝ := -x

/-- `mathutils.SigmoidDeriv`: `s := Sigmoid(x); return s * (1 - s)`. -/
noncomputable def SigmoidDeriv (x : ℝ) : ℝ := Sigmoid x * (1 - Sigmoid x)

/-- `mathutils.SigmoidMatrix`: element-wise sigmoid of a matrix. -/
noncomputable def SigmoidMatrix (m : Mat) : Mat := m.map fun row => row.map Sigmoid

/-- `mathutils.MatMul` (src/unnamed/part_003).  The Go code reads
`colsA := len(a[0])` and `colsB := len(b[0])` (panicking on empty inputs), then
runs the triple loop `out[i][j] = Σ_{k < colsA} a[i][k] * b[k][j]` with no
dimension check: it panics when an access is out of range (a row of `a` shorter
than `colsA`, or `b` having fewer than `colsA` rows, or a used row of `b`
shorter than `colsB`), and otherwise silently computes with exactly the first
`colsA` rows of `b`.  `none` models a panic. -/
noncomputable def MatMul (a b : Mat) : Option Mat :=
  if a.isEmpty || b.isEmpty then none
  else
    let colsA := (a.headD []).length
    let colsB := (b.headD []).length
    if (colsB == 0) || (colsA == 0) ||
        (a.all (fun row => decide (colsA ≤ row.length)) &&
         decide (colsA ≤ b.length) &&
         (b.take colsA).all (fun row => decide (colsB ≤ row.length)))
    then some ((List.range a.length).map fun i =>
           (List.range colsB).map fun j =>
             ((List.range colsA).map fun k =>
               (a.getD i []).getD k 0 * (b.getD k []).getD j 0).sum)
    else none

/-- `mathutils.AddBias` (src/unnamed/part_003): `out[i][j] = x[i][j] + b[j]` for
every `j < len(x[i])`; panics (here `none`) when some row of `x` is longer than
`b`. -/
def AddBias (x : Mat) (b : Vec) : Option Mat :=
  if x.all (fun row => decide (row.length ≤ b.length))
  then some (x.map fun row => List.zipWith (· + ·) row b)
  else none

/-- `autoencoder.Autoencoder` (src/internal/autoencoder/autoencoder.go).
`inputSize` and `latentSize` are unexported (lower-case) fields; `W1`, `b1`,
`W2`, `b2` are exported. -/
structure Autoencoder where
  inputSize : ℕ
  latentSize : ℕ
  W1 : Mat
  b1 : Vec
  W2 : Mat
  b2 : Vec

/-- `Autoencoder.Forward`:
`z1 := AddBias(MatMul(x, W1), b1); a1 := SigmoidMatrix(z1);`
`z2 := AddBias(MatMul(a1, W2), b2); out := SigmoidMatrix(z2);`
returning `(a1, out, z1, z2)`.  `Forward` reads the parameters and never
writes them. -/
noncomputable def Forward (ae : Autoencoder) (x : Mat) :
    Option (Mat × Mat × Mat × Mat) := do
  let z1 ← AddBias (← MatMul x ae.W1) ae.b1
  let a1 := SigmoidMatrix z1
  let z2 ← AddBias (← MatMul a1 ae.W2) ae.b2
  let out := SigmoidMatrix z2
  pure (a1, out, z1, z2)

/-- `Autoencoder.Encode`: `a1 := SigmoidMatrix(MatMul(x, W1))`.  Note the
source does not add the bias `b1` here. -/
noncomputable def Encode (ae : Autoencoder) (x : Mat) : Option Mat :=
  (MatMul x ae.W1).map SigmoidMatrix

/-- `Autoencoder.Decode`: `out := SigmoidMatrix(MatMul(latent, W2))`.  Note the
source does not add the bias `b2` here. -/
noncomputable def Decode (ae : Autoencoder) (latent : Mat) : Option Mat :=
  (MatMul latent ae.W2).map SigmoidMatrix

/-- Panic-freedom of the access pattern of `computeOutputGradient`: for every
row `i` of `out` with a nonempty row, the loop body reads `x[i][j]` and
`z2[i][j]` for each `j < len(out[i])`. -/
def cogOk (out x z2 : Mat) : Bool :=
  (List.range out.length).all fun i =>
    ((out.getD i []).length == 0) ||
    (decide (i < x.length) && decide (i < z2.length) &&
     decide ((out.getD i []).length ≤ (x.getD i []).length) &&
     decide ((out.getD i []).length ≤ (z2.getD i []).length))

/-- The `dOut` matrix built by `computeOutputGradient`:
`dOut[i][j] = 2 * (out[i][j] - x[i][j]) * SigmoidDeriv(z2[i][j])`. -/
noncomputable def dOutMat (out x z2 : Mat) : Mat :=
  (List.range out.length).map fun i =>
    (List.range (out.getD i []).length).map fun j =>
      2 * ((out.getD i []).getD j 0 - (x.getD i []).getD j 0) *
        SigmoidDeriv ((z2.getD i []).getD j 0)

/-- The `mse` accumulated by `computeOutputGradient`:
`Σ_{i,j} diff*diff`, then `mse /= float64(len(out[0]))`. -/
noncomputable def mseVal (out x : Mat) : ℝ :=
  (((List.range out.length).map fun i =>
      (((List.range (out.getD i []).length).map fun j =>
          ((out.getD i []).getD j 0 - (x.getD i []).getD j 0) *
          ((out.getD i []).getD j 0 - (x.getD i []).getD j 0))).sum)).sum /
    ((out.headD []).length : ℝ)

/-- `Autoencoder.computeOutputGradient` (autoencoder.go lines 82-95).  The
final `mse /= float64(len(out[0]))` reads `out[0]`, so an empty `out` panics
(`none`); note the divisor is the column count of row 0, never the batch
size. -/
noncomputable def computeOutputGradient (out x z2 : Mat) : Option (Mat × ℝ) :=
  if !out.isEmpty && cogOk out x z2
  then some (dOutMat out x z2, mseVal out x)
  else none

/-- Panic-freedom of the access pattern of `computeGradientsW2`: the (chunked)
loops cover every row index `i < len(a1)` and, when `inputSize > 0`, read
`dOut[i][j]` for `j < inputSize` and, when additionally `latentSize > 0`,
`a1[i][k]` for `k < latentSize`. -/
def gradW2Ok (ae : Autoencoder) (a1 dOut : Mat) : Bool :=
  (ae.inputSize == 0) ||
  (List.range a1.length).all fun i =>
    decide (i < dOut.length) &&
    decide (ae.inputSize ≤ (dOut.getD i []).length) &&
    ((ae.latentSize == 0) || decide (ae.latentSize ≤ (a1.getD i []).length))

/-- One row step of the accumulation loop of `computeGradientsW2`
(autoencoder.go lines 114-121): for each `j < inputSize`,
`db2[j] += dOut[i][j]` and for each `k < latentSize`,
`dW2[k][j] += a1[i][k] * dOut[i][j]`. -/
def stepW2 (ae : Autoencoder) (a1 dOut : Mat) (acc : Mat × Vec) (i : ℕ) :
    Mat × Vec :=
  ((List.range ae.latentSize).map fun k =>
     (List.range ae.inputSize).map fun j =>
       (acc.1.getD k []).getD j 0 +
         (a1.getD i []).getD k 0 * (dOut.getD i []).getD j 0,
   (List.range ae.inputSize).map fun j =>
     acc.2.getD j 0 + (dOut.getD i []).getD j 0)

/-- `Autoencoder.computeGradientsW2` (autoencoder.go lines 98-126), race-free
denotation.  The Go code dispatches `runtime.NumCPU()` goroutines over
contiguous row chunks `[w*n/W, (w+1)*n/W)` — these chunks partition
`[0, len(a1))` exactly — but every goroutine writes the shared `dW2`/`db2`
directly, with no private accumulator and no synchronisation besides the final
`wg.Wait()`.  Under atomic (race-free) execution the accumulated totals do not
depend on the chunking, and equal this sequential left fold over the rows; the
unsynchronised read-modify-write races themselves are modelled separately by
`runRace` below. -/
def computeGradientsW2 (ae : Autoencoder) (a1 dOut : Mat) :
    Option (Mat × Vec) :=
  if gradW2Ok ae a1 dOut
  then some ((List.range a1.length).foldl (stepW2 ae a1 dOut)
      (List.replicate ae.latentSize (List.replicate ae.inputSize 0),
       List.replicate ae.inputSize 0))
  else none

/-- Panic-freedom of the access pattern of `backpropHidden`: goroutine `i`
(for `i < numWorkers`, NOT `i` ranging over batch rows) writes `dA1[i]`
(which has `len(dOut)` rows) and reads `z1[i][j]`, `W2[j]` for
`j < latentSize`, and, when `inputSize > 0`, `dOut[i][k]` and `W2[j][k]` for
`k < inputSize`.  When `latentSize = 0` the goroutine bodies do nothing. -/
def backpropOk (ae : Autoencoder) (dOut z1 : Mat) (numWorkers : ℕ) : Bool :=
  (ae.latentSize == 0) ||
  (List.range numWorkers).all fun i =>
    decide (i < dOut.length) && decide (i < z1.length) &&
    decide (ae.latentSize ≤ (z1.getD i []).length) &&
    decide (ae.latentSize ≤ ae.W2.length) &&
    ((ae.inputSize == 0) ||
     (decide (ae.inputSize ≤ (dOut.getD i []).length) &&
      (List.range ae.latentSize).all fun j =>
        decide (ae.inputSize ≤ (ae.W2.getD j []).length)))

/-- `Autoencoder.backpropHidden` (autoencoder.go lines 129-153).  The Go code
allocates `dA1` with `len(dOut)` rows of `latentSize` zeros, then starts
`numWorkers = runtime.NumCPU()` goroutines where goroutine `i` computes
`dA1[i][j] = (Σ_{k<inputSize} dOut[i][k] * W2[j][k]) * SigmoidDeriv(z1[i][j])`
for THE SINGLE ROW `i` — the loop variable is the worker index, not a row
partition.  Rows `i ≥ numWorkers` are left at zero, and `numWorkers` larger
than the batch size makes goroutine `i` index `dOut[i]` out of range (`none`).
`numWorkers` is a parameter here because `runtime.NumCPU()` is an environment
value. -/
noncomputable def backpropHidden (ae : Autoencoder) (dOut z1 : Mat)
    (numWorkers : ℕ) : Option Mat :=
  if backpropOk ae dOut z1 numWorkers
  then some ((List.range dOut.length).map fun i =>
    if i < numWorkers then
      (List.range ae.latentSize).map fun j =>
        (((List.range ae.inputSize).map fun k =>
            (dOut.getD i []).getD k 0 * (ae.W2.getD j []).getD k 0).sum) *
          SigmoidDeriv ((z1.getD i []).getD j 0)
    else List.replicate ae.latentSize 0)
  else none

/-- Panic-freedom of the access pattern of `computeGradientsW1`: the chunked
loops cover every row `i < len(x)` and, when `latentSize > 0`, read
`dA1[i][j]` for `j < latentSize` and, when additionally `inputSize > 0`,
`x[i][k]` for `k < inputSize`. -/
def gradW1Ok (ae : Autoencoder) (x dA1 : Mat) : Bool :=
  (ae.latentSize == 0) ||
  (List.range x.length).all fun i =>
    decide (i < dA1.length) &&
    decide (ae.latentSize ≤ (dA1.getD i []).length) &&
    ((ae.inputSize == 0) || decide (ae.inputSize ≤ (x.getD i []).length))

/-- One row step of the accumulation loop of `computeGradientsW1`
(autoencoder.go lines 172-179): for each `j < latentSize`,
`db1[j] += dA1[i][j]` and for each `k < inputSize`,
`dW1[k][j] += x[i][k] * dA1[i][j]`. -/
def stepW1 (ae : Autoencoder) (x dA1 : Mat) (acc : Mat × Vec) (i : ℕ) :
    Mat × Vec :=
  ((List.range ae.inputSize).map fun k =>
     (List.range ae.latentSize).map fun j =>
       (acc.1.getD k []).getD j 0 +
         (x.getD i []).getD k 0 * (dA1.getD i []).getD j 0,
   (List.range ae.latentSize).map fun j =>
     acc.2.getD j 0 + (dA1.getD i []).getD j 0)

/-- `Autoencoder.computeGradientsW1` (autoencoder.go lines 156-184), race-free
denotation, exactly as for `computeGradientsW2`: the goroutines write the
shared `dW1`/`db1` directly (no private accumulators), and under atomic
execution the totals equal this sequential fold over the rows. -/
def computeGradientsW1 (ae : Autoencoder) (x dA1 : Mat) :
    Option (Mat × Vec) :=
  if gradW1Ok ae x dA1
  then some ((List.range x.length).foldl (stepW1 ae x dA1)
      (List.replicate ae.inputSize (List.replicate ae.latentSize 0),
       List.replicate ae.latentSize 0))
  else none

/-- The scalar `mse` returned by `Autoencoder.TrainStep` (autoencoder.go lines
66-79): `TrainStep` runs `Forward`, then `computeOutputGradient` on
`(out, x, z2)` and returns that `mse`; the subsequent gradient computations
and the weight update do not touch the returned loss value. -/
noncomputable def trainStepLoss (ae : Autoencoder) (x : Mat) : Option ℝ :=
  (Forward ae x).bind fun r =>
    (computeOutputGradient r.2.1 x r.2.2.2).map fun p => p.2

/-- What `encoding/gob` writes for an `*Autoencoder` in `Save`: gob serialises
only the exported fields `W1`, `b1`, `W2`, `b2`; the unexported `inputSize`
and `latentSize` are not encoded. -/
structure StoredParams where
  W1 : Mat
  b1 : Vec
  W2 : Mat
  b2 : Vec

/-- `Autoencoder.Save` (autoencoder.go lines 230-239): `gob.Encode(ae)`
serialises the exported fields only.  File-system errors are an I/O concern
not modelled here. -/
def Save (ae : Autoencoder) : StoredParams :=
  ⟨ae.W1, ae.b1, ae.W2, ae.b2⟩

/-- `Autoencoder.Load` (autoencoder.go lines 242-251): `gob.Decode(ae)`
overwrites the exported fields `W1`, `b1`, `W2`, `b2` with the stored values,
whatever their shapes; it performs no shape validation at all, and the
unexported `inputSize`/`latentSize` are untouched.  The only errors the Go
function can return are file/stream I/O errors, not modelled here. -/
def Load (ae : Autoencoder) (s : StoredParams) : Autoencoder :=
  { ae with W1 := s.W1, b1 := s.b1, W2 := s.W2, b2 := s.b2 }

/-- A parameter set whose shapes agree with the declared sizes, with both
sizes positive (as in every construction site of `NewAutoencoder`). -/
def WellFormed (ae : Autoencoder) : Prop :=
  ae.W1.length = ae.inputSize ∧ (∀ row ∈ ae.W1, row.length = ae.latentSize) ∧
  ae.b1.length = ae.latentSize ∧
  ae.W2.length = ae.latentSize ∧ (∀ row ∈ ae.W2, row.length = ae.inputSize) ∧
  ae.b2.length = ae.inputSize ∧
  0 < ae.inputSize ∧ 0 < ae.latentSize

/-- A valid batch for a model: nonempty, every sample of length `inputSize`. -/
def ValidBatch (ae : Autoencoder) (x : Mat) : Prop :=
  x ≠ [] ∧ ∀ row ∈ x, row.length = ae.inputSize

/-- Events of two goroutines each performing one unsynchronised
`cell += v` on the same shared gradient cell, as in `computeGradientsW2`'s
`db2[j] += dOut[i][j]`: in Go this compiles to a plain load followed by a
plain store, so each increment is a read event and a write event that may
interleave with the other goroutine's. -/
inductive RaceEv where
  | read0 | write0 | read1 | write1

/-- Shared cell plus the two goroutines' local registers. -/
structure RaceState where
  cell : ℝ
  r0 : ℝ
  r1 : ℝ

/-- Effect of one event: a read loads the shared cell into the goroutine's
register; a write stores register-plus-increment back to the cell. -/
def raceStep (a b : ℝ) (s : RaceState) : RaceEv → RaceState
  | RaceEv.read0 => { s with r0 := s.cell }
  | RaceEv.write0 => { s with cell := s.r0 + a }
  | RaceEv.read1 => { s with r1 := s.cell }
  | RaceEv.write1 => { s with cell := s.r1 + b }

/-- Final value of the shared cell after executing a schedule (an interleaving
of the two goroutines' events) from a zero-initialised cell, where goroutine 0
adds `a` and goroutine 1 adds `b`. -/
def runRace (a b : ℝ) (evs : List RaceEv) : ℝ :=
  (evs.foldl (raceStep a b) ⟨0, 0, 0⟩).cell

/-! Concrete instances used in the claim theorems. -/

/-- A 1-input, 1-latent model with unit weights and zero biases. -/
noncomputable def aeTiny : Autoencoder := ⟨1, 1, [[1]], [0], [[1]], [0]⟩

/-- Same tensors as `aeTiny` but different (unexported) size fields. -/
noncomputable def aeTiny57 : Autoencoder := ⟨5, 7, [[1]], [0], [[1]], [0]⟩

/-- A 1-input, 1-latent model with a nonzero encoder bias `b1 = [1]` and zero
decoder weights. -/
noncomputable def aeBias : Autoencoder := ⟨1, 1, [[0]], [1], [[0]], [0]⟩

/-- An `input_size = 8`, `latent_size = 1` model with unit weights and zero
biases. -/
noncomputable def ae8 : Autoencoder :=
  ⟨8, 1, List.replicate 8 [1], [0], [[1, 1, 1, 1, 1, 1, 1, 1]],
    List.replicate 8 0⟩

/-- A batch holding one sample of length 7 — one element short of `ae8`'s
`input_size = 8`. -/
noncomputable def x7 : Mat := [[0, 0, 0, 0, 0, 0, 0]]

/-- A 2-input, 1-latent model used as the `Load` target. -/
noncomputable def ae5 : Autoencoder := ⟨2, 1, [[1], [1]], [0], [[1, 1]], [0, 0]⟩

/-- Stored tensors whose shapes disagree with `ae5`'s sizes. -/
noncomputable def s5 : StoredParams := ⟨[[1, 2, 3]], [5], [[7]], [9]⟩

/-! Helper lemmas about list-encoded matrices. -/

lemma getD_map_range {α : Type} {d : α} {g : ℕ → α} {m j : ℕ} (h : j < m) :
    ((List.range m).map g).getD j d = g j := by
  rw [List.getD_eq_getElem?_getD]
  simp [List.getElem?_map, List.getElem?_range, h]

lemma sum_map_range_succ (f : ℕ → ℝ) (n : ℕ) :
    ((List.range (n + 1)).map f).sum = ((List.range n).map f).sum + f n := by
  rw [List.range_succ]
  simp

lemma map_range_const {α : Type} (c : α) (m : ℕ) :
    (List.range m).map (fun _ => c) = List.replicate m c := by
  rw [List.map_const']
  simp

lemma getD_mem {l : List ℝ} {n : ℕ} (h : n < l.length) : l.getD n 0 ∈ l := by
  rw [List.getD_eq_getElem _ _ h]
  exact List.getElem_mem h

lemma getD_mem_row {l : Mat} {n : ℕ} (h : n < l.length) : l.getD n [] ∈ l := by
  rw [List.getD_eq_getElem _ _ h]
  exact List.getElem_mem h

lemma headD_mem {l : Mat} (h : l ≠ []) : l.headD [] ∈ l := by
  cases l with
  | nil => exact absurd rfl h
  | cons a t => simp

lemma getD_take {l : Mat} {n c : ℕ} (h : n < c) :
    (l.take c).getD n [] = l.getD n [] := by
  rw [List.getD_eq_getElem?_getD, List.getD_eq_getElem?_getD, List.getElem?_take]
  simp [h]

/-! Closed forms of the accumulation folds. -/

lemma foldW2_closed (ae : Autoencoder) (a1 dOut : Mat) (n : ℕ) :
    (List.range n).foldl (stepW2 ae a1 dOut)
      (List.replicate ae.latentSize (List.replicate ae.inputSize 0),
       List.replicate ae.inputSize 0) =
    ((List.range ae.latentSize).map fun k =>
       (List.range ae.inputSize).map fun j =>
         ((List.range n).map fun i =>
           (a1.getD i []).getD k 0 * (dOut.getD i []).getD j 0).sum,
     (List.range ae.inputSize).map fun j =>
       ((List.range n).map fun i => (dOut.getD i []).getD j 0).sum) := by
  induction n with
  | zero =>
    simp only [List.range_zero, List.foldl_nil, List.map_nil, List.sum_nil]
    rw [map_range_const, map_range_const]
  | succ n ih =>
    rw [List.range_succ, List.foldl_append, List.foldl_cons, List.foldl_nil, ih]
    simp only [stepW2, Prod.mk.injEq]
    constructor
    · apply List.map_congr_left
      intro k hk
      apply List.map_congr_left
      intro j hj
      rw [getD_map_range (List.mem_range.mp hk),
        getD_map_range (List.mem_range.mp hj)]
      simp [List.map_append]
    · apply List.map_congr_left
      intro j hj
      rw [getD_map_range (List.mem_range.mp hj)]
      simp [List.map_append]

lemma foldW1_closed (ae : Autoencoder) (x dA1 : Mat) (n : ℕ) :
    (List.range n).foldl (stepW1 ae x dA1)
      (List.replicate ae.inputSize (List.replicate ae.latentSize 0),
       List.replicate ae.latentSize 0) =
    ((List.range ae.inputSize).map fun k =>
       (List.range ae.latentSize).map fun j =>
         ((List.range n).map fun i =>
           (x.getD i []).getD k 0 * (dA1.getD i []).getD j 0).sum,
     (List.range ae.latentSize).map fun j =>
       ((List.range n).map fun i => (dA1.getD i []).getD j 0).sum) := by
  induction n with
  | zero =>
    simp only [List.range_zero, List.foldl_nil, List.map_nil, List.sum_nil]
    rw [map_range_const, map_range_const]
  | succ n ih =>
    rw [List.range_succ, List.foldl_append, List.foldl_cons, List.foldl_nil, ih]
    simp only [stepW1, Prod.mk.injEq]
    constructor
    · apply List.map_congr_left
      intro k hk
      apply List.map_congr_left
      intro j hj
      rw [getD_map_range (List.mem_range.mp hk),
        getD_map_range (List.mem_range.mp hj)]
      simp [List.map_append]
    · apply List.map_congr_left
      intro j hj
      rw [getD_map_range (List.mem_range.mp hj)]
      simp [List.map_append]

/-! Shape lemmas for the tensor ops. -/

lemma MatMul_eq_some {a b : Mat} {c d : ℕ} (ha : a ≠ []) (hb : b ≠ [])
    (harows : ∀ row ∈ a, row.length = c) (hblen : b.length = c)
    (hbrows : ∀ row ∈ b, row.length = d) :
    MatMul a b = some ((List.range a.length).map fun i =>
      (List.range d).map fun j =>
        ((List.range c).map fun k =>
          (a.getD i []).getD k 0 * (b.getD k []).getD j 0).sum) := by
  obtain ⟨a0, ta, rfl⟩ : ∃ h t, a = h :: t := by
    cases a with
    | nil => exact absurd rfl ha
    | cons h t => exact ⟨h, t, rfl⟩
  obtain ⟨b0, tb, rfl⟩ : ∃ h t, b = h :: t := by
    cases b with
    | nil => exact absurd rfl hb
    | cons h t => exact ⟨h, t, rfl⟩
  have hA : a0.length = c := harows a0 (List.mem_cons_self a0 ta)
  have hB : b0.length = d := hbrows b0 (List.mem_cons_self b0 tb)
  simp only [MatMul, List.isEmpty_cons, Bool.or_self, Bool.false_eq_true,
    if_false, List.headD_cons]
  simp only [hA, hB]
  rw [if_pos]
  have h3 : ((a0 :: ta).all fun row => decide (c ≤ row.length)) = true := by
    simp only [List.all_eq_true, decide_eq_true_eq]
    intro row hrow
    exact le_of_eq (harows row hrow).symm
  have h4 : decide (c ≤ (b0 :: tb).length) = true := by
    simp [hblen]
  have h5 : (((b0 :: tb).take c).all fun row => decide (d ≤ row.length)) = true := by
    simp only [List.all_eq_true, decide_eq_true_eq]
    intro row hrow
    exact le_of_eq (hbrows row (List.mem_of_mem_take hrow)).symm
  rw [h3, h4, h5]
  simp

lemma AddBias_eq_some {x : Mat} {b : Vec} (h : ∀ row ∈ x, row.length ≤ b.length) :
    AddBias x b = some (x.map fun row => List.zipWith (· + ·) row b) := by
  unfold AddBias
  rw [if_pos]
  simp only [List.all_eq_true, decide_eq_true_eq]
  exact h

lemma MatMul_some_shape {a b : Mat} {c d : ℕ} (ha : a ≠ []) (hb : b ≠ [])
    (harows : ∀ row ∈ a, row.length = c) (hblen : b.length = c)
    (hbrows : ∀ row ∈ b, row.length = d) :
    ∃ m, MatMul a b = some m ∧ m.length = a.length ∧
      ∀ row ∈ m, row.length = d := by
  refine ⟨_, MatMul_eq_some ha hb harows hblen hbrows, by simp, ?_⟩
  intro row hrow
  rcases List.mem_map.mp hrow with ⟨i, _, rfl⟩
  simp

lemma AddBias_some_shape {x : Mat} {b : Vec} {L : ℕ}
    (hrows : ∀ row ∈ x, row.length = L) (hL : L ≤ b.length) :
    ∃ z, AddBias x b = some z ∧ z.length = x.length ∧
      ∀ row ∈ z, row.length = L := by
  refine ⟨_, AddBias_eq_some (fun row hrow => (hrows row hrow) ▸ hL), by simp, ?_⟩
  intro row hrow
  rcases List.mem_map.mp hrow with ⟨r, hr, rfl⟩
  rw [List.length_zipWith, hrows r hr]
  omega

lemma SigmoidMatrix_length (m : Mat) : (SigmoidMatrix m).length = m.length := by
  simp [SigmoidMatrix]

lemma SigmoidMatrix_rows {m : Mat} {L : ℕ} (h : ∀ row ∈ m, row.length = L) :
    ∀ row ∈ SigmoidMatrix m, row.length = L := by
  intro row hrow
  rcases List.mem_map.mp hrow with ⟨r, hr, rfl⟩
  simpa using h r hr

/-- Adding an all-zero bias is the identity on each row it covers. -/
lemma zipWith_add_zero (row b : Vec) (hb : ∀ v ∈ b, v = 0)
    (hl : row.length ≤ b.length) : List.zipWith (· + ·) row b = row := by
  induction row generalizing b with
  | nil => simp
  | cons a t ih =>
    cases b with
    | nil => simp at hl
    | cons v bt =>
      simp only [List.zipWith_cons_cons]
      rw [hb v (List.mem_cons_self v bt), add_zero,
        ih bt (fun w hw => hb w (List.mem_cons_of_mem v hw)) (by simpa using hl)]

/-- If `AddBias` succeeded and the bias is all zeros, the result is the
input. -/
lemma AddBias_some_zero {m z : Mat} {b : Vec} (h : AddBias m b = some z)
    (hb : ∀ v ∈ b, v = 0) : z = m := by
  unfold AddBias at h
  by_cases hc : (m.all fun row => decide (row.length ≤ b.length)) = true
  · rw [if_pos hc] at h
    injection h with h
    subst h
    have hlen : ∀ row ∈ m, row.length ≤ b.length := by
      simpa only [List.all_eq_true, decide_eq_true_eq] using hc
    calc m.map (fun row => List.zipWith (· + ·) row b)
        = m.map id := List.map_congr_left fun row hrow =>
          zipWith_add_zero row b hb (hlen row hrow)
      _ = m := List.map_id m
  · rw [if_neg hc] at h
    cases h

/-! Facts about the sigmoid. -/

lemma Sigmoid_pos (x : ℝ) : 0 < Sigmoid x := by
  unfold Sigmoid
  positivity

lemma Sigmoid_lt_one (x : ℝ) : Sigmoid x < 1 := by
  unfold Sigmoid
  rw [div_lt_one (by positivity)]
  have := Real.exp_pos (-x)
  linarith

lemma Sigmoid_zero_val : Sigmoid 0 = 1 / 2 := by
  unfold Sigmoid
  rw [neg_zero, Real.exp_zero]
  norm_num

lemma SigmoidDeriv_zero_val : SigmoidDeriv 0 = 1 / 4 := by
  unfold SigmoidDeriv
  rw [Sigmoid_zero_val]
  norm_num

lemma Sigmoid_one_ne_Sigmoid_zero : Sigmoid 1 ≠ Sigmoid 0 := by
  rw [Sigmoid_zero_val]
  unfold Sigmoid
  have h1 : Real.exp (-1) < 1 := by
    rw [Real.exp_lt_one_iff]
    norm_num
  have h2 : (0 : ℝ) < Real.exp (-1) := Real.exp_pos _
  intro h
  rw [div_eq_div_iff (by linarith) (by norm_num)] at h
  linarith

/-- On a well-formed model and a valid batch, `Forward` succeeds and every
intermediate has the expected shape. -/
lemma Forward_wf {ae : Autoencoder} {x : Mat} (hae : WellFormed ae)
    (hx : ValidBatch ae x) :
    ∃ a1 out z1 z2, Forward ae x = some (a1, out, z1, z2) ∧
      a1 = SigmoidMatrix z1 ∧ out = SigmoidMatrix z2 ∧
      z1.length = x.length ∧ (∀ row ∈ z1, row.length = ae.latentSize) ∧
      z2.length = x.length ∧ (∀ row ∈ z2, row.length = ae.inputSize) ∧
      out.length = x.length ∧ (∀ row ∈ out, row.length = ae.inputSize) ∧
      a1.length = x.length ∧ (∀ row ∈ a1, row.length = ae.latentSize) := by
  obtain ⟨hW1len, hW1rows, hb1, hW2len, hW2rows, hb2, hin, hlat⟩ := hae
  obtain ⟨hxne, hxrows⟩ := hx
  have hW1ne : ae.W1 ≠ [] := by
    intro h
    rw [h] at hW1len
    simp at hW1len
    omega
  have hW2ne : ae.W2 ≠ [] := by
    intro h
    rw [h] at hW2len
    simp at hW2len
    omega
  obtain ⟨m1, hm1, hm1len, hm1rows⟩ :=
    MatMul_some_shape hxne hW1ne hxrows hW1len hW1rows
  obtain ⟨z1, hz1, hz1len, hz1rows⟩ :=
    AddBias_some_shape hm1rows (le_of_eq hb1.symm)
  have ha1len : (SigmoidMatrix z1).length = x.length := by
    rw [SigmoidMatrix_length, hz1len, hm1len]
  have ha1rows := SigmoidMatrix_rows hz1rows
  have ha1ne : SigmoidMatrix z1 ≠ [] :=
    List.length_pos.mp (ha1len ▸ List.length_pos.mpr hxne)
  obtain ⟨m2, hm2, hm2len, hm2rows⟩ :=
    MatMul_some_shape ha1ne hW2ne ha1rows hW2len hW2rows
  obtain ⟨z2, hz2, hz2len, hz2rows⟩ :=
    AddBias_some_shape hm2rows (le_of_eq hb2.symm)
  refine ⟨SigmoidMatrix z1, SigmoidMatrix z2, z1, z2, ?_, rfl, rfl,
    by rw [hz1len, hm1len], hz1rows,
    by rw [hz2len, hm2len, ha1len], hz2rows,
    by rw [SigmoidMatrix_length, hz2len, hm2len, ha1len],
    SigmoidMatrix_rows hz2rows, ha1len, ha1rows⟩
  simp [Forward, hm1, hz1, hm2, hz2]

/-- C5, counterexample: `Load` with stored tensors whose dimensions disagree
with the target model's `input_size`/`latent_size` does not fail with a
`ShapeMismatch` error — it succeeds and installs the mismatched tensors
verbatim (here a 1×3 `W1` into a model with `input_size = 2`,
`latent_size = 1`), leaving the model ill-formed. -/
theorem Load_no_shape_check_cex :
    Load ae5 s5 = ⟨2, 1, [[1, 2, 3]], [5], [[7]], [9]⟩ ∧
    (Load ae5 s5).W1.length ≠ (Load ae5 s5).inputSize ∧
    ¬ WellFormed (Load ae5 s5) := by
  refine ⟨rfl, by simp [Load, ae5, s5], ?_⟩
  intro h
  obtain ⟨h1, -, -, -, -, -, -, -⟩ := h
  simp [Load, ae5, s5] at h1

/-- C5, amended: `Load` performs no shape validation at all — for every target
model and every stored parameter set, gob decoding succeeds and replaces the
four exported tensors `W1`, `b1`, `W2`, `b2` wholesale with the stored values
(no truncating, no padding), whatever their dimensions. -/
theorem Load_installs_tensors_verbatim (ae : Autoencoder) (s : StoredParams) :
    (Load ae s).W1 = s.W1 ∧ (Load ae s).b1 = s.b1 ∧
    (Load ae s).W2 = s.W2 ∧ (Load ae s).b2 = s.b2 :=
  ⟨rfl, rfl, rfl, rfl⟩

/-- C10: `Load` never modifies the receiver's `inputSize`/`latentSize` (they
are unexported, hence not decoded by gob), and `Save` serialises only the four
exported tensors: two models with equal tensors but different size fields have
equal `Save` output. -/
theorem Load_preserves_sizes_Save_omits_sizes (ae ae2 : Autoencoder)
    (s : StoredParams) (h1 : ae.W1 = ae2.W1) (h2 : ae.b1 = ae2.b1)
    (h3 : ae.W2 = ae2.W2) (h4 : ae.b2 = ae2.b2) :
    (Load ae s).inputSize = ae.inputSize ∧
    (Load ae s).latentSize = ae.latentSize ∧ Save ae = Save ae2 := by
  refine ⟨rfl, rfl, ?_⟩
  simp [Save, h1, h2, h3, h4]

/-- C10, witness: `aeTiny` and `aeTiny57` share tensors but have different
size fields; loading `s5` into `aeTiny` keeps its sizes, and both models
serialise identically. -/
theorem Load_preserves_sizes_witness :
    (Load aeTiny s5).inputSize = aeTiny.inputSize ∧
    (Load aeTiny s5).latentSize = aeTiny.latentSize ∧
    Save aeTiny = Save aeTiny57 :=
  Load_preserves_sizes_Save_omits_sizes aeTiny aeTiny57 s5 rfl rfl rfl rfl

/-- C9, counterexample: the source's `Sigmoid` is the naive formulation — at
`x = -1000` it passes the large positive argument `1000` to `math.Exp`
(in float64 `exp(1000)` overflows to `+Inf`), so it does not avoid
exponentiating large positive arguments. -/
theorem Sigmoid_naive_large_arg_cex :
    sigmoidExpArg (-1000) = 1000 ∧ ¬ sigmoidExpArg (-1000) ≤ 0 ∧
    Sigmoid (-1000) = 1 / (1 + Real.exp 1000) := by
  refine ⟨by norm_num [sigmoidExpArg], by norm_num [sigmoidExpArg], ?_⟩
  unfold Sigmoid
  norm_num

/-- C9, amended: over the reals `Sigmoid x` equals `1/(1+e^-x)` (equivalently
the stable form `e^x/(1+e^x)`), but the implementation always passes `-x` to
the exponential — the naive formulation, with no branch on sign. -/
theorem Sigmoid_value_and_naive_arg (x : ℝ) :
    Sigmoid x = Real.exp x / (1 + Real.exp x) ∧ sigmoidExpArg x = -x := by
  refine ⟨?_, rfl⟩
  unfold Sigmoid
  have h1 : (0 : ℝ) < 1 + Real.exp (-x) := by positivity
  have h2 : (0 : ℝ) < 1 + Real.exp x := by positivity
  rw [div_eq_div_iff h1.ne' h2.ne', one_mul, mul_add, mul_one, ← Real.exp_add]
  simp [add_comm]

/-- C1: `backpropHidden` does not compute `dA1` for every batch row, and its
worker count is not capped at the batch size.  With the 2-row batch
`dOut = [[2],[2]]`, `z1 = [[0],[0]]` on `aeTiny` (`W2 = [[1]]`):
with `numWorkers = 1` the code leaves row 1 at zero (`[[1/2],[0]]`), although
the per-row formula gives `SigmoidDeriv(0) * (2*1) = 1/2 ≠ 0` for row 1 as
well; and with `numWorkers = 4 >` batch size the code panics (goroutine 2
indexes `dOut[2]` out of range), modelled as `none`. -/
theorem backpropHidden_row_coverage_bug :
    backpropHidden aeTiny [[2], [2]] [[0], [0]] 1 = some [[1 / 2], [0]] ∧
    backpropHidden aeTiny [[2], [2]] [[0], [0]] 4 = none ∧
    SigmoidDeriv 0 * (2 * 1) ≠ 0 := by
  refine ⟨?_, ?_, ?_⟩
  · unfold backpropHidden
    rw [if_pos (by rfl)]
    simp [aeTiny, List.range_succ, SigmoidDeriv_zero_val]
    norm_num
  · unfold backpropHidden
    rw [if_neg]
    rw [show (backpropOk aeTiny [[2], [2]] [[0], [0]] 4) = false from rfl]
    simp
  · rw [SigmoidDeriv_zero_val]
    norm_num

/-- C2: the gradient-accumulation workers do NOT write into private
accumulators — they increment the shared `db2`/`dW2` (`db1`/`dW1`) cells
directly.  With a 2-row batch and 2 workers, worker 0 handles row 0 and
worker 1 handles row 1 (chunks `[0,1)` and `[1,2)`), and both execute the
unsynchronised `db2[0] += dOut[i][0]`.  The interleaving read0·read1·write0·
write1 loses one contribution (final cell 1), while the race-free sequential
execution — here `computeGradientsW2` on `dOut = [[1],[1]]` — yields
`db2 = [2]`: concurrency can change the result, so the gradients are not
race-free worker-count-invariant. -/
theorem computeGradients_shared_write_race :
    runRace 1 1 [RaceEv.read0, RaceEv.read1, RaceEv.write0, RaceEv.write1]
      = 1 ∧
    runRace 1 1 [RaceEv.read0, RaceEv.write0, RaceEv.read1, RaceEv.write1]
      = 2 ∧
    computeGradientsW2 aeTiny [[0], [0]] [[1], [1]] = some ([[0]], [2]) ∧
    (1 : ℝ) ≠ 2 := by
  refine ⟨?_, ?_, ?_, by norm_num⟩
  · simp [runRace, raceStep]
  · simp [runRace, raceStep]
    norm_num
  · unfold computeGradientsW2
    rw [if_pos (by rfl)]
    rw [foldW2_closed]
    simp [aeTiny, List.range_succ]
    norm_num

/-- C3, amended: `MatMul` performs no dimension check between `A`'s column
count and `B`'s row count — whenever `A` has at least one column, the product
depends only on the first `colsA = len(A[0])` rows of `B`: extra rows of `B`
are silently ignored (and too few rows is an index-out-of-range panic, not a
`DimensionMismatch` error). -/
theorem MatMul_ignores_extra_rows (a b : Mat)
    (h : 0 < (a.headD []).length) :
    MatMul a b = MatMul a (b.take (a.headD []).length) := by
  cases a with
  | nil => simp at h
  | cons a0 ta =>
    cases b with
    | nil => simp [MatMul]
    | cons b0 tb =>
      simp only [List.headD_cons] at h ⊢
      obtain ⟨c, hc⟩ : ∃ c, a0.length = c + 1 := ⟨a0.length - 1, by omega⟩
      have hget : ∀ k, k < c + 1 →
          ((b0 :: tb).getD k []) = ((b0 :: tb.take c).getD k []) := by
        intro k hk
        cases k with
        | zero => rfl
        | succ k' =>
          simp only [List.getD_cons_succ]
          exact (getD_take (by omega)).symm
      have hlen : decide (c + 1 ≤ (b0 :: tb).length)
          = decide (c + 1 ≤ (b0 :: tb.take c).length) := by
        apply decide_eq_decide.mpr
        simp only [List.length_cons, List.length_take]
        omega
      have hbody : ((List.range (a0 :: ta).length).map fun i =>
          (List.range b0.length).map fun j =>
            ((List.range (c + 1)).map fun k =>
              ((a0 :: ta).getD i []).getD k 0 *
                ((b0 :: tb).getD k []).getD j 0).sum) =
          ((List.range (a0 :: ta).length).map fun i =>
          (List.range b0.length).map fun j =>
            ((List.range (c + 1)).map fun k =>
              ((a0 :: ta).getD i []).getD k 0 *
                ((b0 :: tb.take c).getD k []).getD j 0).sum) := by
        apply List.map_congr_left
        intro i _
        apply List.map_congr_left
        intro j _
        congr 1
        apply List.map_congr_left
        intro k hk
        rw [hget k (List.mem_range.mp hk)]
      simp only [MatMul, List.isEmpty_cons, Bool.or_self, Bool.false_eq_true,
        if_false, List.headD_cons, hc, List.take_succ_cons, List.take_take,
        Nat.min_self, hlen, hbody]

/-- C3 amended, witness: a 1×1 matrix times a 2-row matrix equals the product
with the extra second row dropped. -/
theorem MatMul_ignores_extra_rows_witness :
    0 < (([[(1 : ℝ)]] : Mat).headD []).length ∧
    MatMul [[(1 : ℝ)]] [[2], [3]] = MatMul [[(1 : ℝ)]] [[2]] := by
  refine ⟨by norm_num, ?_⟩
  have h := MatMul_ignores_extra_rows [[(1 : ℝ)]] [[2], [3]] (by norm_num)
  simpa using h

/-- C3, counterexample: calling `Forward` with a batch sample of length 7
against a model configured with `input_size = 8` does NOT fail with a
`DimensionMismatch` error: it succeeds (no error value exists anywhere in the
pipeline), silently multiplying the length-7 sample with the first 7 rows of
the 8-row `W1` (the parameters, read-only throughout `Forward`, are
unchanged). -/
theorem Forward_len7_no_error_cex :
    (Forward ae8 x7).isSome = true ∧
    MatMul x7 ae8.W1 = some [[0]] ∧
    MatMul x7 ae8.W1 = MatMul x7 (ae8.W1.take 7) := by
  refine ⟨?_, ?_, ?_⟩
  · simp [Forward, MatMul, AddBias, SigmoidMatrix, ae8, x7, List.range_succ]
  · simp [MatMul, ae8, x7, List.range_succ]
  · rw [show MatMul x7 ae8.W1 = some [[0]] by simp [MatMul, ae8, x7, List.range_succ]]
    rw [show MatMul x7 (ae8.W1.take 7) = some [[0]] by
      simp [MatMul, ae8, x7, List.range_succ]]

/-- C4, counterexample: on a model with encoder bias `b1 = [1]` (`aeBias`),
`Encode` does not return the latent matrix `A1` that `Forward` computes:
`Encode` skips the bias addition and yields `[[Sigmoid 0]]`, while `Forward`'s
`A1` is `[[Sigmoid 1]]`, and `Sigmoid 1 ≠ Sigmoid 0`. -/
theorem Encode_omits_bias_cex :
    Encode aeBias [[0]] = some [[Sigmoid 0]] ∧
    Forward aeBias [[0]] = some ([[Sigmoid 1]], [[Sigmoid 0]], [[1]], [[0]]) ∧
    Sigmoid 1 ≠ Sigmoid 0 := by
  refine ⟨?_, ?_, Sigmoid_one_ne_Sigmoid_zero⟩
  · simp [Encode, MatMul, SigmoidMatrix, aeBias, List.range_succ]
  · simp [Forward, MatMul, AddBias, SigmoidMatrix, aeBias, List.range_succ]

/-- C4, amended: `Encode` computes `sigmoid(matmul(x, W1))` WITHOUT the bias
`b1`, and `Decode` computes `sigmoid(matmul(latent, W2))` WITHOUT `b2`; they
reproduce `Forward`'s two stages (`A1` and `Out`) exactly when both biases are
zero vectors. -/
theorem Encode_Decode_zero_bias (ae : Autoencoder) (x a1 out z1 z2 : Mat)
    (hf : Forward ae x = some (a1, out, z1, z2))
    (hb1 : ∀ v ∈ ae.b1, v = 0) (hb2 : ∀ v ∈ ae.b2, v = 0) :
    Encode ae x = some a1 ∧ Decode ae a1 = some out := by
  rw [show Forward ae x = (MatMul x ae.W1).bind fun m1 =>
      (AddBias m1 ae.b1).bind fun z1 =>
      (MatMul (SigmoidMatrix z1) ae.W2).bind fun m2 =>
      (AddBias m2 ae.b2).bind fun z2 =>
      some (SigmoidMatrix z1, SigmoidMatrix z2, z1, z2) from rfl] at hf
  rw [Option.bind_eq_some] at hf
  obtain ⟨m1, hm1, hf⟩ := hf
  rw [Option.bind_eq_some] at hf
  obtain ⟨z1x, hz1, hf⟩ := hf
  rw [Option.bind_eq_some] at hf
  obtain ⟨m2, hm2, hf⟩ := hf
  rw [Option.bind_eq_some] at hf
  obtain ⟨z2x, hz2, hf⟩ := hf
  simp only [Option.some.injEq, Prod.mk.injEq] at hf
  obtain ⟨ha1, hout, hz1e, hz2e⟩ := hf
  have hm1z : z1x = m1 := AddBias_some_zero hz1 hb1
  have hm2z : z2x = m2 := AddBias_some_zero hz2 hb2
  constructor
  · simp only [Encode]
    rw [hm1, Option.map_some', ← ha1, hm1z]
  · simp only [Decode]
    rw [← ha1, hm2, Option.map_some', ← hout, hm2z]

/-- C4 amended, witness: on the zero-bias model `aeTiny`, `Encode` reproduces
`Forward`'s latent `A1` and `Decode` reproduces its reconstruction `Out`. -/
theorem Encode_Decode_zero_bias_witness :
    Encode aeTiny [[1]] = some [[Sigmoid 1]] ∧
    Decode aeTiny [[Sigmoid 1]] = some [[Sigmoid (Sigmoid 1)]] :=
  Encode_Decode_zero_bias aeTiny [[1]] [[Sigmoid 1]] [[Sigmoid (Sigmoid 1)]]
    [[1]] [[Sigmoid 1]]
    (by simp [Forward, MatMul, AddBias, SigmoidMatrix, aeTiny, List.range_succ])
    (by simp [aeTiny]) (by simp [aeTiny])

/-- C8: for every well-formed model and valid batch, `Forward` succeeds, the
reconstruction `Out` has the batch's row count and per-row lengths, and every
element of `Out` lies strictly in the open interval (0,1). -/
theorem Forward_shape_and_range (ae : Autoencoder) (x : Mat)
    (hae : WellFormed ae) (hx : ValidBatch ae x) :
    ∃ a1 out z1 z2, Forward ae x = some (a1, out, z1, z2) ∧
      out.length = x.length ∧
      (∀ i, i < x.length → (out.getD i []).length = (x.getD i []).length) ∧
      ∀ row ∈ out, ∀ v ∈ row, 0 < v ∧ v < 1 := by
  obtain ⟨a1, out, z1, z2, hf, ha1e, houte, hz1l, hz1r, hz2l, hz2r, houtl,
    houtr, ha1l, ha1r⟩ := Forward_wf hae hx
  refine ⟨a1, out, z1, z2, hf, houtl, ?_, ?_⟩
  · intro i hi
    have h1 : out.getD i [] ∈ out := getD_mem_row (by rw [houtl]; exact hi)
    have h2 : x.getD i [] ∈ x := getD_mem_row hi
    rw [houtr _ h1, hx.2 _ h2]
  · intro row hrow v hv
    rw [houte] at hrow
    rcases List.mem_map.mp hrow with ⟨r, hr, rfl⟩
    rcases List.mem_map.mp hv with ⟨w, hw, rfl⟩
    exact ⟨Sigmoid_pos w, Sigmoid_lt_one w⟩

/-- C8, witness: on `aeTiny` with batch `[[1]]` the reconstruction exists,
matches the batch's shape and lies in (0,1). -/
theorem Forward_shape_and_range_witness :
    ∃ a1 out z1 z2, Forward aeTiny [[1]] = some (a1, out, z1, z2) ∧
      out.length = ([[(1 : ℝ)]] : Mat).length ∧
      (∀ i, i < ([[(1 : ℝ)]] : Mat).length →
        (out.getD i []).length = (([[(1 : ℝ)]] : Mat).getD i []).length) ∧
      ∀ row ∈ out, ∀ v ∈ row, 0 < v ∧ v < 1 :=
  Forward_shape_and_range aeTiny [[1]] (by simp [WellFormed, aeTiny])
    (by simp [ValidBatch, aeTiny])

/-- C6: for every well-formed model and valid batch, the loss returned by a
training step equals the sum over all batch rows and all `input_size` output
features of `(Out[i][j] - batch[i][j])^2`, divided by `input_size` alone —
the batch size never enters the normalisation. -/
theorem TrainStep_loss_feature_normalization (ae : Autoencoder)
    (x a1 out z1 z2 : Mat) (hae : WellFormed ae) (hx : ValidBatch ae x)
    (hf : Forward ae x = some (a1, out, z1, z2)) :
    trainStepLoss ae x = some
      ((((List.range x.length).map fun i =>
          (((List.range ae.inputSize).map fun j =>
              ((out.getD i []).getD j 0 - (x.getD i []).getD j 0) *
              ((out.getD i []).getD j 0 - (x.getD i []).getD j 0)).sum)).sum) /
        (ae.inputSize : ℝ)) := by
  obtain ⟨a1', out', z1', z2', hf', ha1e, houte, hz1l, hz1r, hz2l, hz2r,
    houtl, houtr, ha1l, ha1r⟩ := Forward_wf hae hx
  rw [hf] at hf'
  injection hf' with hf'
  obtain ⟨h1, h2, h3, h4⟩ : a1 = a1' ∧ out = out' ∧ z1 = z1' ∧ z2 = z2' := by
    rw [Prod.mk.injEq, Prod.mk.injEq, Prod.mk.injEq] at hf'
    exact ⟨hf'.1, hf'.2.1, hf'.2.2.1, hf'.2.2.2⟩
  subst h1 h2 h3 h4
  have hxpos : 0 < x.length := List.length_pos.mpr hx.1
  have houtne : out ≠ [] := List.length_pos.mp (houtl ▸ hxpos)
  have hcog : (!out.isEmpty && cogOk out x z2) = true := by
    rw [Bool.and_eq_true]
    constructor
    · simpa [List.isEmpty_iff] using houtne
    · rw [cogOk, List.all_eq_true]
      intro i hi
      have hi' : i < out.length := List.mem_range.mp hi
      have hrow : (out.getD i []).length = ae.inputSize :=
        houtr _ (getD_mem_row hi')
      have hxrow : (x.getD i []).length = ae.inputSize :=
        hx.2 _ (getD_mem_row (by rw [← houtl]; exact hi'))
      have hzrow : (z2.getD i []).length = ae.inputSize :=
        hz2r _ (getD_mem_row (by rw [hz2l, ← houtl]; exact hi'))
      simp only [Bool.or_eq_true, Bool.and_eq_true, decide_eq_true_eq]
      right
      refine ⟨⟨⟨?_, ?_⟩, ?_⟩, ?_⟩
      · rw [← houtl]; exact hi'
      · rw [hz2l, ← houtl]; exact hi'
      · rw [hrow, hxrow]
      · rw [hrow, hzrow]
  have hcg : computeOutputGradient out x z2
      = some (dOutMat out x z2, mseVal out x) := by
    unfold computeOutputGradient
    rw [if_pos hcog]
  have hloss : trainStepLoss ae x = some (mseVal out x) := by
    rw [show trainStepLoss ae x = (Forward ae x).bind fun r =>
        (computeOutputGradient r.2.1 x r.2.2.2).map fun p => p.2 from rfl,
      hf, Option.some_bind]
    rw [hcg]
    rfl
  rw [hloss]
  congr 1
  unfold mseVal
  have hdiv : (out.headD []).length = ae.inputSize :=
    houtr _ (headD_mem houtne)
  rw [hdiv, houtl]
  congr 1
  congr 1
  apply List.map_congr_left
  intro i hi
  have : (out.getD i []).length = ae.inputSize :=
    houtr _ (getD_mem_row (by rw [houtl]; exact List.mem_range.mp hi))
  rw [this]

/-- C6, witness: on `aeTiny` (one feature) and the one-sample batch `[[1]]`
the returned loss is the single squared difference divided by
`input_size = 1`. -/
theorem TrainStep_loss_witness :
    trainStepLoss aeTiny [[1]] =
      some ((Sigmoid (Sigmoid 1) - 1) * (Sigmoid (Sigmoid 1) - 1)) := by
  have h := TrainStep_loss_feature_normalization aeTiny [[1]] [[Sigmoid 1]]
    [[Sigmoid (Sigmoid 1)]] [[1]] [[Sigmoid 1]] (by simp [WellFormed, aeTiny])
    (by simp [ValidBatch, aeTiny])
    (by simp [Forward, MatMul, AddBias, SigmoidMatrix, aeTiny, List.range_succ])
  rw [h]
  norm_num [aeTiny, List.range_succ]

/-- C7: whenever `computeOutputGradient` and `computeGradientsW2` succeed, the
decoder gradients are exactly the row accumulations
`db2[j] = Σ_i dOut[i][j]` and `dW2[k][j] = Σ_i A1[i][k] * dOut[i][j]`, with
`dOut[i][j] = 2 * (Out[i][j] - batch[i][j]) * SigmoidDeriv(Z2[i][j])` — the
derivative taken at the pre-activation `Z2`, not at the activation. -/
theorem decoder_gradients_accumulation (ae : Autoencoder)
    (out x z2 a1 dOut : Mat) (L : ℝ) (dW2 : Mat) (db2 : Vec)
    (hog : computeOutputGradient out x z2 = some (dOut, L))
    (hw2 : computeGradientsW2 ae a1 dOut = some (dW2, db2)) :
    (∀ i, i < out.length → ∀ j, j < (out.getD i []).length →
      (dOut.getD i []).getD j 0 =
        2 * ((out.getD i []).getD j 0 - (x.getD i []).getD j 0) *
          SigmoidDeriv ((z2.getD i []).getD j 0)) ∧
    db2 = ((List.range ae.inputSize).map fun j =>
      ((List.range a1.length).map fun i => (dOut.getD i []).getD j 0).sum) ∧
    dW2 = ((List.range ae.latentSize).map fun k =>
      (List.range ae.inputSize).map fun j =>
        ((List.range a1.length).map fun i =>
          (a1.getD i []).getD k 0 * (dOut.getD i []).getD j 0).sum) := by
  have hdOut : dOut = dOutMat out x z2 := by
    unfold computeOutputGradient at hog
    by_cases hc : (!out.isEmpty && cogOk out x z2) = true
    · rw [if_pos hc] at hog
      injection hog with hog
      exact (congrArg Prod.fst hog).symm
    · rw [if_neg hc] at hog
      cases hog
  refine ⟨?_, ?_⟩
  · intro i hi j hj
    rw [hdOut]
    unfold dOutMat
    rw [getD_map_range hi, getD_map_range hj]
  · unfold computeGradientsW2 at hw2
    by_cases hc : gradW2Ok ae a1 dOut = true
    · rw [if_pos hc, foldW2_closed] at hw2
      injection hw2 with hw2
      exact ⟨(congrArg Prod.snd hw2).symm, (congrArg Prod.fst hw2).symm⟩
    · rw [if_neg hc] at hw2
      cases hw2

/-- C7, witness: on `aeTiny` with `out = x = z2 = [[0]]`, `a1 = [[1]]`, the
hypotheses hold concretely and the accumulated decoder gradients are the
stated row sums. -/
theorem decoder_gradients_witness :
    ([0] : Vec) = ((List.range aeTiny.inputSize).map fun j =>
      ((List.range ([[(1 : ℝ)]] : Mat).length).map fun i =>
        (([[(0 : ℝ)]] : Mat).getD i []).getD j 0).sum) ∧
    ([[0]] : Mat) = ((List.range aeTiny.latentSize).map fun k =>
      (List.range aeTiny.inputSize).map fun j =>
        ((List.range ([[(1 : ℝ)]] : Mat).length).map fun i =>
          (([[(1 : ℝ)]] : Mat).getD i []).getD k 0 *
            (([[(0 : ℝ)]] : Mat).getD i []).getD j 0).sum) := by
  have h := decoder_gradients_accumulation aeTiny [[0]] [[0]] [[0]] [[1]]
    [[0]] 0 [[0]] [0]
    (by
      unfold computeOutputGradient
      rw [if_pos (by rfl)]
      norm_num [dOutMat, mseVal, List.range_succ])
    (by
      unfold computeGradientsW2
      rw [if_pos (by rfl), foldW2_closed]
      norm_num [aeTiny, List.range_succ])
  exact ⟨h.2.1, h.2.2⟩
